import Mathlib

/-!
Verification development for the ACP 2014 challenge solver
(`acp_challenge.cc`): a shallow embedding in Lean 4 of the instance
loader (`AcpData`), the model-building phase of `Solve`, the `Swap`
local-search operator, the `Filter` acceptance filter, and the
flag-driven search setup, together with theorems settling the spec
claims about them.

Machine integers in the source are `int`/`int64`; all values involved
stay far from overflow, so they are modelled as `Int` (indices that are
provably non-negative as `Nat`).
-/

namespace Acp

/-! ### Line splitting

`strings::Split(line, " ", strings::SkipEmpty())`: split on the single
space character and drop empty tokens.  Lines are modelled as `List
Char`, tokens as `List Char`. -/

/-- Split a character list on the space character, keeping empty pieces
(the raw split before `SkipEmpty`). -/
def splitOnSpace : List Char → List (List Char)
  | [] => [[]]
  | c :: cs =>
    if c = ' ' then [] :: splitOnSpace cs
    else
      match splitOnSpace cs with
      | [] => [[c]]
      | t :: ts => (c :: t) :: ts

/-- `strings::Split(line, " ", strings::SkipEmpty())`: split on spaces and
drop empty tokens. -/
def splitSkipEmpty (line : List Char) : List (List Char) :=
  (splitOnSpace line).filter (fun t => t ≠ [])

/-- `atoi32` on a token: optional leading minus sign, then the longest
digit prefix, 0 when there is none. -/
def atoi32 (t : List Char) : Int :=
  let digits : List Char → Nat := fun l =>
    (l.takeWhile Char.isDigit).foldl (fun acc c => 10 * acc + (c.toNat - 48)) 0
  match t with
  | '-' :: rest => - (digits rest : Int)
  | _ => (digits t : Int)

/-! ### `AcpData`: the instance loader -/

/-- The fields of class `AcpData`.  The constructor initialises
`num_periods_` and `num_products_` to `-1`, `inventory_cost_` and
`state_` to `0`, and leaves the vectors empty. -/
structure AcpData where
  numPeriods : Int
  numProducts : Int
  inventoryCost : Int
  dueDatesPerProduct : List (List Int)
  transitions : List (List Int)
  state : Int
  deriving Repr, DecidableEq

/-- `AcpData()` constructor state. -/
def initAcpData : AcpData :=
  { numPeriods := -1, numProducts := -1, inventoryCost := 0
    dueDatesPerProduct := [], transitions := [], state := 0 }

/-- `AcpData::ProcessNewLine`.  `none` models a fatal `CHECK_EQ` failure
(token count mismatch); otherwise the updated data is returned.  The
`default` branch of the `switch` only logs an error and changes
nothing. -/
def processNewLine (d : AcpData) (line : List Char) : Option AcpData :=
  let words := splitSkipEmpty line
  if words.isEmpty then some d
  else
    if d.state = 0 then
      some { d with numPeriods := atoi32 (words.getD 0 []), state := 1 }
    else if d.state = 1 then
      some { d with numProducts := atoi32 (words.getD 0 []), state := 2 }
    else if d.state = 2 then
      if (words.length : Int) ≠ d.numPeriods then none
      else
        let indices :=
          (List.range words.length).filterMap (fun i =>
            if atoi32 (words.getD i []) = 1 then some (i : Int) else none)
        let dd := d.dueDatesPerProduct ++ [indices]
        some { d with
          dueDatesPerProduct := dd
          state := if (dd.length : Int) = d.numProducts then 3 else 2 }
    else if d.state = 3 then
      some { d with inventoryCost := atoi32 (words.getD 0 []), state := 4 }
    else if d.state = 4 then
      if (words.length : Int) ≠ d.numProducts then none
      else
        some { d with
          transitions :=
            d.transitions ++ [(List.range words.length).map
              (fun i => atoi32 (words.getD i []))] }
    else
      some d

/-- `AcpData::Load` via `FileLineReader`: `none` models an unreadable
file (`loaded_successfully()` false, an error is logged, the data is
left as constructed); a readable file feeds each line to
`ProcessNewLine`, a `CHECK` failure aborting the whole load. -/
def load (file : Option (List (List Char))) (d : AcpData) :
    Option AcpData × Bool :=
  match file with
  | none => (some d, false)
  | some lines =>
    (lines.foldlM (fun acc line => processNewLine acc line) d, true)

/-- Outcome of running `main` then `Solve`: a fatal abort, or reaching
the model-building/search phase of `Solve` with the loaded data. -/
inductive RunOutcome where
  | fatalAbort
  | ranSearch (d : AcpData)
  deriving Repr, DecidableEq

/-- `main` followed by the load phase of `Solve`: an empty `--input`
flag is `LOG(FATAL)`; otherwise `Solve` loads the file (an unreadable
file only logs an error) and proceeds to build the model.  A `CHECK`
failure inside parsing aborts. -/
def runMain (input : List Char) (fs : List Char → Option (List (List Char))) :
    RunOutcome :=
  if input = [] then .fatalAbort
  else
    match load (fs input) initAcpData with
    | (some d, _) => .ranSearch d
    | (none, _) => .fatalAbort

/-! ### The `Swap` local-search operator

`Swap::MakeOneNeighbor` advances the two `int` counters `index1_`,
`index2_` and either signals the end of the pass (`false`) or proposes
the move exchanging the values at positions `index1_` and `index2_`.
`OnStart` resets both counters to 0.  Counters are `Int`, as in the
source. -/

/-- The two counters of class `Swap`. -/
structure SwapState where
  index1 : Int
  index2 : Int
  deriving Repr, DecidableEq

/-- `Swap::OnStart`. -/
def swapOnStart : SwapState := ⟨0, 0⟩

/-- `Swap::MakeOneNeighbor` for `Size() = size`: the updated counters and
`none` when it returns `false`, or `some (i1, i2)` for the proposed move
`SetValue(i1, OldValue(i2)); SetValue(i2, OldValue(i1))`. -/
def makeOneNeighbor (size : Int) (s : SwapState) : SwapState × Option (Int × Int) :=
  let index2 := s.index2 + 1
  let (index1, index2) :=
    if index2 = size then (s.index1 + 1, (0 : Int)) else (s.index1, index2)
  if index1 = size - 1 then (⟨index1, index2⟩, none)
  else (⟨index1, index2⟩, some (index1, index2))

/-- Run `MakeOneNeighbor` repeatedly from state `s`, collecting the
proposed moves, until it returns `false` (second component `true`) or
the fuel runs out (second component `false`). -/
def swapPassAux (size : Int) : Nat → SwapState → List (Int × Int) × Bool
  | 0, _ => ([], false)
  | fuel + 1, s =>
    match makeOneNeighbor size s with
    | (_, none) => ([], true)
    | (s', some p) =>
      let rest := swapPassAux size fuel s'
      (p :: rest.1, rest.2)

/-- One full pass of `Swap` over `n` variables, from `OnStart` until
`MakeOneNeighbor` first returns `false`, with fuel `n * n` (more than
the pass can ever use when it terminates). -/
def swapPass (n : Nat) : List (Int × Int) × Bool :=
  swapPassAux (n : Int) (n * n) swapOnStart

/-! ### The `Filter` acceptance filter -/

/-- One element of the delta's `IntContainer`: whether it is activated,
the index of the touched variable, and its proposed value. -/
structure DeltaElem where
  activated : Bool
  varIndex : Nat
  value : Int
  deriving Repr, DecidableEq

/-- The mutable state of class `Filter` that `Accept` reads:
`tmp_solution_` and `current_cost_`. -/
structure FilterState where
  tmpSolution : List Int
  currentCost : Int
  deriving Repr, DecidableEq

/-- `Filter::Evaluate`, stubbed in the source to return 0. -/
def filterEvaluate (_solution : List Int) : Int := 0

/-- `Filter::OnSynchronize`: copy the current values into
`tmp_solution_` (and `current_position_`, not modelled because nothing
reads it) and refresh `current_cost_ = Evaluate()`. -/
def filterOnSynchronize (currentValues : List Int) : FilterState :=
  { tmpSolution := currentValues, currentCost := filterEvaluate currentValues }

/-- Write `value` at position `i` of `tmp_solution_`. -/
def setNth (l : List Int) (i : Nat) (v : Int) : List Int :=
  l.set i v

/-- `Filter::Accept`: copy the current values into `tmp_solution_`;
return `true` as soon as some delta element is not activated; otherwise
overwrite the touched positions with the delta's values and accept iff
`Evaluate()` of the result is strictly below `current_cost_`. -/
def filterAccept (fs : FilterState) (currentValues : List Int)
    (delta : List DeltaElem) : Bool :=
  let tmp := currentValues
  if delta.any (fun e => !e.activated) then true
  else
    let tmp := delta.foldl (fun acc e => setNth acc e.varIndex e.value) tmp
    filterEvaluate tmp < fs.currentCost

/-! ### Model building in `Solve`

The derived item/product mappings and the two tuple sets, exactly as
`Solve` builds them. -/

/-- `num_items`: total number of due-date occurrences, summed over the
rows of `due_dates_per_product()`. -/
def numItems (dueDates : List (List Int)) : Nat :=
  (dueDates.map List.length).sum

/-- `num_residuals = data.num_periods() - num_items` (an `int` in the
source, so `Int` here: it can be negative on inconsistent data). -/
def numResiduals (numPeriods : Int) (dueDates : List (List Int)) : Int :=
  numPeriods - (numItems dueDates : Int)

/-- `item_to_product`: for `i` below `num_products()`, one entry `i` per
element of `due_dates_per_product()[i]`. -/
def itemToProduct (numProducts : Nat) (dueDates : List (List Int)) : List Nat :=
  (List.range numProducts).flatMap (fun i =>
    (dueDates.getD i []).map (fun _ => i))

/-- The 5-tuples inserted into `transition_cost_tuples`, in insertion
order: for each product `i`, for each product `j` the direct-switch
tuple `(i,i,j,j,cost)` and the from-idle tuple `(-1,i,j,j,cost)`, then
the two keep-state tuples `(i,i,-1,i,0)` and `(-1,i,-1,i,0)` and the
initial-activation tuple `(-1,-1,i,i,0)`; finally the all-idle tuple
`(-1,-1,-1,-1,0)`. -/
def transitionCostTuples (numProducts : Nat) (transitions : List (List Int)) :
    List (Int × Int × Int × Int × Int) :=
  ((List.range numProducts).flatMap (fun i =>
    ((List.range numProducts).flatMap (fun j =>
      let cost := (transitions.getD i []).getD j 0
      [((i : Int), (i : Int), (j : Int), (j : Int), cost),
       (-1, (i : Int), (j : Int), (j : Int), cost)]))
    ++ [((i : Int), (i : Int), -1, (i : Int), 0),
        (-1, (i : Int), -1, (i : Int), 0),
        (-1, -1, (i : Int), (i : Int), 0)]))
  ++ [(-1, -1, -1, -1, 0)]

/-- The pairs inserted into `product_tuples`, in insertion order: one
pair `(i, item_to_product[i])` per index of `item_to_product`, then one
pair `(num_items + i, -1)` for every `int` `i` with `0 <= i <=
num_residuals` (note `<=`: that loop runs `num_residuals + 1` times when
`num_residuals ≥ 0`). -/
def productTuples (numPeriods : Int) (numProducts : Nat)
    (dueDates : List (List Int)) : List (Int × Int) :=
  let itp := itemToProduct numProducts dueDates
  (List.range itp.length).map (fun i : Nat => ((i : Int), ((itp.getD i 0 : Nat) : Int)))
  ++ (List.range (numResiduals numPeriods dueDates + 1).toNat).map
      (fun i => (((numItems dueDates + i : Nat) : Int), (-1 : Int)))

/-- A variable pushed onto the `deliveries` vector.  Only the residual
`inactive` variables are ever pushed in the source; a constructor for
the real per-item delivery variables exists so the embedding could
express them. -/
inductive DeliveryVar where
  | delivery (product : Nat) (occurrence : Nat) (dueDate : Int)
  | inactive (index : Nat)
  deriving Repr, DecidableEq

/-- State threaded through the delivery-construction loops of `Solve`:
the `deliveries` vector and whether `deliveries.back()` was ever read
while the vector was empty (undefined behaviour in C++). -/
structure DeliveryLoopState where
  deliveries : List DeliveryVar
  emptyBackAccess : Bool
  deriving Repr, DecidableEq

/-- One iteration of the inner loop over the due dates of product `i`:
a `delivery` variable is created with bounds `[0, due_date]`, for `j > 0`
`deliveries.back()` is read to post the ordering constraint (recorded as
an empty-vector access when `deliveries` is empty), an inventory-cost
expression is built — and the `delivery` variable is never pushed onto
`deliveries`. -/
def processDeliveryItem (s : DeliveryLoopState) (_i j : Nat) :
    DeliveryLoopState :=
  if 0 < j then
    { s with emptyBackAccess := s.emptyBackAccess || s.deliveries.isEmpty }
  else s

/-- The delivery-construction phase of `Solve`: the double loop over
products and their due dates, then the loop pushing the `num_residuals`
`inactive` variables (that loop uses `<`, so it runs
`max num_residuals 0` times). -/
def deliveryPhase (numPeriods : Int) (numProducts : Nat)
    (dueDates : List (List Int)) : DeliveryLoopState :=
  let afterItems :=
    (List.range numProducts).foldl (fun s i =>
      (List.range (dueDates.getD i []).length).foldl
        (fun s' j => processDeliveryItem s' i j) s)
      ⟨[], false⟩
  { afterItems with
    deliveries := afterItems.deliveries ++
      (List.range (numResiduals numPeriods dueDates).toNat).map
        DeliveryVar.inactive }

/-- Number of variables in the `items` array:
`MakeIntVarArray(data.num_periods(), 0, data.num_periods() - 1)`. -/
def itemsArrayLength (numPeriods : Int) : Nat :=
  numPeriods.toNat

/-! ### The boundary rule on the first period -/

/-- `MakeIsEqualCstVar(v, c)`: the 0/1 indicator of `v = c`. -/
def isEqualCstVar (v c : Int) : Int :=
  if v = c then 1 else 0

/-- The constraint `Solve` posts for the first element:
`MakeGreaterOrEqual(MakeIsEqualCstVar(states[0], -1),
MakeIsEqualCstVar(products[0], -1))`. -/
def boundaryConstraintHolds (state0 product0 : Int) : Prop :=
  isEqualCstVar state0 (-1) ≥ isEqualCstVar product0 (-1)

instance (state0 product0 : Int) :
    Decidable (boundaryConstraintHolds state0 product0) := by
  unfold boundaryConstraintHolds; infer_instance

/-! ### Flag-driven search setup -/

/-- The pieces of the search setup in `Solve` that depend on the
command-line flags: the failure limit of the inner LNS search
(`MakeFailuresLimit(FLAGS_lns_limit)`), the destruction-set size of
`MakeRandomLNSOperator(items, 10)` (a hardcoded literal), and the
operator list (only the RandomLNS operator is pushed; `swap` is built
but commented out of the list). -/
structure SearchSetup where
  failuresLimit : Int
  randomLnsSize : Nat
  operators : List Nat
  deriving Repr, DecidableEq

/-- The search setup `Solve` builds from the flag values.
`FLAGS_lns_size` is never read by `Solve`; the RandomLNS size is the
literal 10. -/
def buildSearchSetup (_lnsSizeFlag : Int) (lnsLimitFlag : Int) : SearchSetup :=
  { failuresLimit := lnsLimitFlag
    randomLnsSize := 10
    operators := [10] }

/-! ## Theorems settling the claims -/

/-- All pieces of an all-space line's raw split are empty. -/
lemma splitOnSpace_all_spaces (line : List Char) (h : ∀ c ∈ line, c = ' ') :
    ∀ t ∈ splitOnSpace line, t = [] := by
  induction line with
  | nil => intro t ht; simpa [splitOnSpace] using ht
  | cons c cs ih =>
    intro t ht
    have hc : c = ' ' := h c (by simp)
    have hstep : splitOnSpace (c :: cs) = [] :: splitOnSpace cs := by
      simp [splitOnSpace, hc]
    rw [hstep] at ht
    rcases List.mem_cons.mp ht with ht | ht
    · exact ht
    · exact ih (fun x hx => h x (by simp [hx])) t ht

/-- C10: a line that splits into zero tokens leaves the loader's entire
state (`num_periods_`, `num_products_`, `inventory_cost_`,
`due_dates_per_product_`, `transitions_` and the state counter)
unchanged, in every parser state — and any blank or all-space line does
split into zero tokens. -/
theorem c10_blank_line_is_noop (d : AcpData) (line : List Char) :
    (splitSkipEmpty line = [] → processNewLine d line = some d) ∧
    ((∀ c ∈ line, c = ' ') → splitSkipEmpty line = []) := by
  constructor
  · intro h
    unfold processNewLine
    simp [h]
  · intro h
    unfold splitSkipEmpty
    rw [List.filter_eq_nil_iff]
    intro t ht
    simpa using splitOnSpace_all_spaces line h t ht

/-- C10 witness: an all-space line in parser state 2 changes nothing. -/
theorem c10_blank_line_is_noop_witness :
    processNewLine { initAcpData with state := 2, numPeriods := 3 }
      [' ', ' ', ' '] = some { initAcpData with state := 2, numPeriods := 3 } :=
  (c10_blank_line_is_noop _ _).1 (by decide)

/-- C3 counterexample: the claim says `Filter::Accept` accepts every
candidate delta; in fact, after a synchronization, a fully activated
delta is rejected — `Evaluate()` is stubbed to 0, the cached cost is 0,
and `0 < 0` fails. -/
theorem c3_accept_counterexample :
    filterAccept (filterOnSynchronize [0, 1, 2]) [0, 1, 2]
      [⟨true, 0, 1⟩, ⟨true, 1, 0⟩] = false := by decide

/-- C3 amended: with `Evaluate` stubbed to return 0, after any
synchronization `Filter::Accept` returns `true` iff some element of the
delta is not activated; every fully activated delta is rejected, because
the recomputed cost 0 is not strictly below the cached cost 0. -/
theorem c3_accept_iff_partially_activated (syncValues currentValues : List Int)
    (delta : List DeltaElem) :
    filterAccept (filterOnSynchronize syncValues) currentValues delta
      = delta.any (fun e => !e.activated) := by
  by_cases h : delta.any (fun e => !e.activated)
  · simp [filterAccept, h]
  · simp [filterAccept, h, filterOnSynchronize, filterEvaluate]

/-- C5 counterexample: the posted first-period constraint
`IsEqual(state[0],-1) ≥ IsEqual(product[0],-1)` is satisfied by
`state[0] = -1` (none) together with `product[0] = 0` (an active
product), for which the claimed biconditional
`state[0] = none ↔ product[0] = idle` fails — so the posted boundary
constraint is not a biconditional. -/
theorem c5_boundary_counterexample :
    boundaryConstraintHolds (-1) 0 ∧ ¬(((-1 : Int) = -1) ↔ ((0 : Int) = -1)) := by
  constructor
  · decide
  · decide

/-- C5 amended: the boundary constraint posted on the first period is
exactly the one-directional implication `product[0] = idle →
state[0] = none`; the converse direction is not part of this
constraint. -/
theorem c5_boundary_is_implication (state0 product0 : Int) :
    boundaryConstraintHolds state0 product0 ↔ (product0 = -1 → state0 = -1) := by
  unfold boundaryConstraintHolds isEqualCstVar
  by_cases h1 : state0 = -1 <;> by_cases h2 : product0 = -1 <;>
    simp [h1, h2]

/-- C8: the `--lns_size` flag value is never threaded into the search
setup: any two values produce identical setups, and the RandomLNS
destruction-set size is the hardcoded literal 10. -/
theorem c8_lns_size_flag_unused (lnsSize1 lnsSize2 lnsLimit : Int) :
    buildSearchSetup lnsSize1 lnsLimit = buildSearchSetup lnsSize2 lnsLimit ∧
    (buildSearchSetup lnsSize1 lnsLimit).randomLnsSize = 10 :=
  ⟨rfl, rfl⟩

/-- C6 counterexample: with a non-empty `--input` naming an unreadable
file, the run is not a fatal abort: `Load` only logs an error, and the
process proceeds to build the model from the constructor-default data
(`num_periods = -1`). -/
theorem c6_unreadable_counterexample :
    runMain ['a'] (fun _ => none) = RunOutcome.ranSearch initAcpData ∧
    initAcpData.numPeriods = -1 := by
  constructor
  · rfl
  · rfl

/-- C6 amended: only an empty `--input` flag aborts fatally
(`LOG(FATAL)` in `main`); an unreadable file is not fatal — `Load` logs
an error, leaves the data as constructed, and `Solve` proceeds to model
building with it. -/
theorem c6_load_error_handling (input : List Char)
    (fs : List Char → Option (List (List Char)))
    (hinput : input ≠ []) (hfile : fs input = none) :
    runMain input fs = RunOutcome.ranSearch initAcpData ∧
    runMain [] fs = RunOutcome.fatalAbort := by
  constructor
  · unfold runMain
    rw [if_neg hinput, hfile]
    rfl
  · rfl

/-- C6 witness: instantiating the amended claim at a concrete path and
an unreadable file system. -/
theorem c6_load_error_handling_witness :
    (['x'] ≠ ([] : List Char)) ∧
    ((fun _ : List Char => (none : Option (List (List Char)))) ['x'] = none) ∧
    (runMain ['x'] (fun _ => none) = RunOutcome.ranSearch initAcpData ∧
     runMain [] (fun _ => none) = RunOutcome.fatalAbort) :=
  ⟨by decide, rfl, c6_load_error_handling ['x'] (fun _ => none) (by decide) rfl⟩

/-- Inner delivery loop over the due dates of product `i`: starting from
an empty `deliveries` vector it stays empty, and the back()-on-empty
flag ends up raised exactly when the product has at least two due
dates. -/
lemma deliveryInnerLoop_empty (i n : Nat) (e : Bool) :
    (List.range n).foldl (fun s' j => processDeliveryItem s' i j) ⟨[], e⟩
      = ⟨[], e || decide (2 ≤ n)⟩ := by
  induction n with
  | zero => simp
  | succ m ih =>
    rw [List.range_succ, List.foldl_append, ih]
    simp only [List.foldl_cons, List.foldl_nil, processDeliveryItem]
    rcases Nat.eq_zero_or_pos m with hm | hm
    · subst hm; simp
    · have h2 : 2 ≤ m + 1 := by omega
      simp [hm, h2]

/-- Outer delivery loop over a list of product indices: the
`deliveries` vector stays empty, and the back()-on-empty flag records
whether any visited product has at least two due dates. -/
lemma deliveryOuterLoop_empty (dueDates : List (List Int)) (l : List Nat)
    (e : Bool) :
    l.foldl (fun s i =>
        (List.range (dueDates.getD i []).length).foldl
          (fun s' j => processDeliveryItem s' i j) s) ⟨[], e⟩
      = ⟨[], e || l.any (fun i => decide (2 ≤ (dueDates.getD i []).length))⟩ := by
  induction l generalizing e with
  | nil => simp
  | cons a t ih =>
    simp only [List.foldl_cons]
    rw [deliveryInnerLoop_empty, ih]
    simp [Bool.or_assoc]

/-- C9: on any instance in which some product has at least two due
dates, the delivery-construction loop of `Solve` reads
`deliveries.back()` while the vector is still empty, and the
`deliveries` vector handed to `MakeInversePermutationConstraint` ends up
holding exactly the `num_residuals` idle variables: no real per-item
delivery variable is ever appended, so the same-product strict-ordering
constraints are not posted over the intended variables. -/
theorem c9_deliveries_back_read_on_empty (numPeriods : Int)
    (numProducts : Nat) (dueDates : List (List Int))
    (h : ∃ i, i < numProducts ∧ 2 ≤ (dueDates.getD i []).length) :
    (deliveryPhase numPeriods numProducts dueDates).emptyBackAccess = true ∧
    (deliveryPhase numPeriods numProducts dueDates).deliveries
      = (List.range (numResiduals numPeriods dueDates).toNat).map
          DeliveryVar.inactive := by
  unfold deliveryPhase
  rw [deliveryOuterLoop_empty]
  refine ⟨?_, by simp⟩
  obtain ⟨i, hi, h2⟩ := h
  simp only [Bool.false_or]
  rw [List.any_eq_true]
  exact ⟨i, List.mem_range.mpr hi, by simpa using h2⟩

/-- C9 witness: a 4-period, 2-product instance whose second product has
due dates {0, 3}. -/
theorem c9_deliveries_back_read_on_empty_witness :
    (∃ i, i < 2 ∧
      2 ≤ (([[1], [0, 3]] : List (List Int)).getD i []).length) ∧
    ((deliveryPhase 4 2 [[1], [0, 3]]).emptyBackAccess = true ∧
     (deliveryPhase 4 2 [[1], [0, 3]]).deliveries
       = (List.range (numResiduals 4 [[1], [0, 3]]).toNat).map
           DeliveryVar.inactive) :=
  ⟨⟨1, by decide, by decide⟩,
   c9_deliveries_back_read_on_empty 4 2 [[1], [0, 3]] ⟨1, by decide, by decide⟩⟩

/-- C1: evaluating the model-building code on the failing instance
(3 periods, 1 product with due dates {0, 2}): the `deliveries` array
handed to `MakeInversePermutationConstraint` holds only the single
residual idle variable — the two real delivery variables were never
appended (and `deliveries.back()` was read while the vector was empty
on the way) — so the posted constraint links the 3-long `item[]` array
to a 1-long delivery array, not to a `num_periods`-long array of one
variable per real item plus one per residual slot. -/
theorem c1_inverse_permutation_arrays_mismatch :
    (deliveryPhase 3 1 [[0, 2]]).deliveries = [DeliveryVar.inactive 0] ∧
    (deliveryPhase 3 1 [[0, 2]]).emptyBackAccess = true ∧
    itemsArrayLength 3 = 3 ∧
    numItems [[0, 2]] + (numResiduals 3 [[0, 2]]).toNat = 3 ∧
    (deliveryPhase 3 1 [[0, 2]]).deliveries.length ≠ 3 := by decide

/-- Sum of the lengths of the rows of `dd`, read through `getD` over the
index range, equals the direct sum of the row lengths. -/
lemma sum_getD_lengths (dd : List (List Int)) :
    ((List.range dd.length).map (fun i => (dd.getD i []).length)).sum
      = (dd.map List.length).sum := by
  induction dd with
  | nil => simp
  | cons a t ih =>
    rw [List.length_cons, List.range_succ_eq_map]
    simp only [List.map_cons, List.map_map, List.sum_cons, List.getD_cons_zero]
    congr 1

/-- `item_to_product` has one entry per real item. -/
lemma itemToProduct_length (numProducts : Nat) (dueDates : List (List Int))
    (hlen : dueDates.length = numProducts) :
    (itemToProduct numProducts dueDates).length = numItems dueDates := by
  subst hlen
  unfold itemToProduct numItems
  rw [List.length_flatMap]
  simp only [Function.comp_def, List.length_map]
  exact sum_getD_lengths dueDates

/-- C4 counterexample: on the instance with 2 periods and 1 product due
at period 0 (`num_items = 1`, `num_residual = 1`), `Solve` builds the
item-assignment relation `[(0, 0), (1, -1), (2, -1)]`: the idle loop
runs for every `i ≤ num_residuals`, producing `num_residual + 1` idle
pairs — 3 pairs in total, not `num_periods = 2` as claimed. -/
theorem c4_product_tuples_counterexample :
    productTuples 2 1 [[0]] = [(0, 0), (1, -1), (2, -1)] ∧
    numItems [[0]] + (numResiduals 2 [[0]]).toNat = 2 ∧
    (productTuples 2 1 [[0]]).length ≠ 2 := by decide

/-- C4 amended: for every loaded instance (one due-date row per product,
at most `num_periods` items), the item-assignment relation contains
exactly one pair `(item_index, product_id)` per real item and exactly
one pair `(idle_slot_index, -1)` for each `idle_slot_index` from
`num_items` up to and including `num_periods` — that is,
`num_residual + 1` idle pairs and `num_periods + 1` pairs in total, all
pairwise distinct. -/
theorem c4_product_tuples_count (numPeriods : Int) (numProducts : Nat)
    (dueDates : List (List Int))
    (hlen : dueDates.length = numProducts)
    (hItems : (numItems dueDates : Int) ≤ numPeriods) :
    (productTuples numPeriods numProducts dueDates).length
      = numPeriods.toNat + 1 ∧
    (productTuples numPeriods numProducts dueDates).Nodup := by
  have hitp := itemToProduct_length numProducts dueDates hlen
  constructor
  · unfold productTuples
    rw [List.length_append, List.length_map, List.length_map,
      List.length_range, List.length_range, hitp]
    unfold numResiduals
    omega
  · apply List.Nodup.of_map Prod.fst
    unfold productTuples
    rw [List.map_append, List.map_map, List.map_map]
    rw [List.nodup_append]
    refine ⟨List.Nodup.map ?_ (List.nodup_range _),
      List.Nodup.map ?_ (List.nodup_range _), ?_⟩
    · intro a b hab
      simpa using hab
    · intro a b hab
      simp only [Function.comp_apply] at hab
      have : numItems dueDates + a = numItems dueDates + b := by
        exact_mod_cast hab
      omega
    · intro x hx hx'
      simp only [List.mem_map, List.mem_range, Function.comp_apply] at hx hx'
      obtain ⟨a, ha, rfl⟩ := hx
      obtain ⟨b, hb, heq⟩ := hx'
      rw [hitp] at ha
      have : numItems dueDates + b = a := by exact_mod_cast heq
      omega

/-- C4 witness: instantiating the amended claim on the 2-period,
1-product instance. -/
theorem c4_product_tuples_count_witness :
    (([[0]] : List (List Int)).length = 1) ∧
    ((numItems [[0]] : Int) ≤ 2) ∧
    ((productTuples 2 1 [[0]]).length = (2 : Int).toNat + 1 ∧
     (productTuples 2 1 [[0]]).Nodup) :=
  ⟨rfl, by decide, c4_product_tuples_count 2 1 [[0]] rfl (by decide)⟩

/-- A `flatMap` whose blocks all have length `c` has length
`l.length * c`. -/
lemma length_flatMap_const {α β : Type} (l : List α) (f : α → List β) (c : Nat)
    (h : ∀ x ∈ l, (f x).length = c) : (l.flatMap f).length = l.length * c := by
  induction l with
  | nil => simp
  | cons a t ih =>
    rw [List.flatMap_cons, List.length_append, h a (List.mem_cons_self a t),
      ih (fun x hx => h x (List.mem_cons_of_mem a hx)), List.length_cons]
    ring

/-- The transition-cost relation has `2·P² + 3·P + 1` inserted tuples:
for each product, `2·P` ordered-pair tuples plus 3 per-product tuples,
and the single all-idle tuple. -/
lemma transitionCostTuples_length (P : Nat) (tr : List (List Int)) :
    (transitionCostTuples P tr).length = 2 * P ^ 2 + 3 * P + 1 := by
  unfold transitionCostTuples
  rw [List.length_append]
  have hblock : ∀ i ∈ List.range P,
      ((((List.range P).flatMap (fun j =>
        let cost := (tr.getD i []).getD j 0
        [((i : Int), (i : Int), (j : Int), (j : Int), cost),
         (-1, (i : Int), (j : Int), (j : Int), cost)]))
      ++ [((i : Int), (i : Int), -1, (i : Int), 0),
          (-1, (i : Int), -1, (i : Int), 0),
          (-1, -1, (i : Int), (i : Int), 0)]).length) = 2 * P + 3 := by
    intro i _
    rw [List.length_append,
      length_flatMap_const (List.range P)
        (fun j =>
          let cost := (tr.getD i []).getD j 0
          [((i : Int), (i : Int), (j : Int), (j : Int), cost),
           (-1, (i : Int), (j : Int), (j : Int), cost)]) 2 (fun j _ => rfl),
      List.length_range]
    simp only [List.length_cons, List.length_nil]
    omega
  rw [length_flatMap_const _ _ (2 * P + 3) hblock, List.length_range]
  simp only [List.length_cons, List.length_nil]
  ring

/-- No two tuples inserted into the transition-cost relation are equal:
the first four components already distinguish every pair of inserted
tuples, whatever the cost matrix holds. -/
lemma transitionCostTuples_nodup (P : Nat) (tr : List (List Int)) :
    (transitionCostTuples P tr).Nodup := by
  unfold transitionCostTuples
  rw [List.nodup_append]
  refine ⟨?_, List.nodup_singleton _, ?_⟩
  · rw [List.nodup_flatMap]
    constructor
    · intro i _
      rw [List.nodup_append]
      refine ⟨?_, ?_, ?_⟩
      · rw [List.nodup_flatMap]
        constructor
        · intro j _
          simp [Prod.mk.injEq]
        · refine (List.pairwise_lt_range P).imp ?_
          intro j j' hlt x hx hx'
          simp only [List.mem_cons, List.not_mem_nil, or_false] at hx hx'
          rcases hx with rfl | rfl <;> rcases hx' with h | h <;>
            simp_all [Prod.mk.injEq]
      · simp [Prod.mk.injEq]
      · intro x hx hx'
        simp only [List.mem_flatMap, List.mem_range, List.mem_cons,
          List.not_mem_nil, or_false] at hx hx'
        obtain ⟨j, -, rfl | rfl⟩ := hx <;>
          rcases hx' with h | h | h <;>
          simp_all [Prod.mk.injEq]
    · refine (List.pairwise_lt_range P).imp ?_
      intro i i' hlt x hx hx'
      simp only [List.mem_append, List.mem_flatMap, List.mem_range,
        List.mem_cons, List.not_mem_nil, or_false] at hx hx'
      rcases hx with ⟨j, -, rfl | rfl⟩ | rfl | rfl | rfl <;>
        rcases hx' with ⟨j', -, h | h⟩ | h | h | h <;>
        simp_all [Prod.mk.injEq]
  · intro x hx hx'
    simp only [List.mem_singleton] at hx'
    subst hx'
    simp only [List.mem_flatMap, List.mem_range, List.mem_append,
      List.mem_cons, List.not_mem_nil, or_false] at hx
    obtain ⟨i, -, hx⟩ := hx
    rcases hx with ⟨j, -, h | h⟩ | h | h | h <;>
      simp_all [Prod.mk.injEq]

/-- C7: for every instance with `P` products, the transition-cost
relation built by `Solve` contains exactly `2·P² + 3·P + 1` tuples — two
per ordered product pair, three per product, plus the single all-idle
tuple — and no two inserted tuples are equal. -/
theorem c7_transition_tuples_count (P : Nat) (tr : List (List Int)) :
    (transitionCostTuples P tr).length = 2 * P ^ 2 + 3 * P + 1 ∧
    (transitionCostTuples P tr).Nodup :=
  ⟨transitionCostTuples_length P tr, transitionCostTuples_nodup P tr⟩

/-- `MakeOneNeighbor` when `index2_` wraps and the pass ends. -/
lemma makeOneNeighbor_wrap_none {n : Int} {s : SwapState}
    (h2 : s.index2 + 1 = n) (h1 : s.index1 + 1 = n - 1) :
    makeOneNeighbor n s = (⟨s.index1 + 1, 0⟩, none) := by
  simp [makeOneNeighbor, h2, h1]

/-- `MakeOneNeighbor` when `index2_` wraps and a move is proposed. -/
lemma makeOneNeighbor_wrap_some {n : Int} {s : SwapState}
    (h2 : s.index2 + 1 = n) (h1 : s.index1 + 1 ≠ n - 1) :
    makeOneNeighbor n s = (⟨s.index1 + 1, 0⟩, some (s.index1 + 1, 0)) := by
  simp [makeOneNeighbor, h2, h1]

/-- `MakeOneNeighbor` when `index2_` advances and the pass ends. -/
lemma makeOneNeighbor_step_none {n : Int} {s : SwapState}
    (h2 : s.index2 + 1 ≠ n) (h1 : s.index1 = n - 1) :
    makeOneNeighbor n s = (⟨s.index1, s.index2 + 1⟩, none) := by
  simp [makeOneNeighbor, h2, h1]

/-- `MakeOneNeighbor` when `index2_` advances and a move is proposed. -/
lemma makeOneNeighbor_step_some {n : Int} {s : SwapState}
    (h2 : s.index2 + 1 ≠ n) (h1 : s.index1 ≠ n - 1) :
    makeOneNeighbor n s
      = (⟨s.index1, s.index2 + 1⟩, some (s.index1, s.index2 + 1)) := by
  simp [makeOneNeighbor, h2, h1]

/-- Invariant of a `Swap` pass over `n ≥ 2` variables: from counters
`(i1, i2)` with `i1·n + i2 + steps = (n-1)·n`, the pass returns `false`
after exactly `steps` further calls, having proposed `steps - 1`
moves. -/
lemma swapPassAux_spec (n : Int) (hn : 2 ≤ n) (fuel : Nat) :
    ∀ (steps : Nat) (i1 i2 : Int),
      0 ≤ i1 → 0 ≤ i2 → i2 < n →
      i1 * n + i2 + steps = (n - 1) * n →
      1 ≤ steps → steps ≤ fuel →
      (swapPassAux n fuel ⟨i1, i2⟩).2 = true ∧
      (swapPassAux n fuel ⟨i1, i2⟩).1.length = steps - 1 := by
  induction fuel with
  | zero =>
    intro steps i1 i2 _ _ _ _ h1 hle
    omega
  | succ f ih =>
    intro steps i1 i2 hi1 hi2 hi2n hk h1 hle
    by_cases hw : i2 + 1 = n
    · have hi2e : i2 = n - 1 := by omega
      rw [hi2e] at hk
      by_cases hend : i1 + 1 = n - 1
      · have hmk := makeOneNeighbor_wrap_none (s := ⟨i1, i2⟩) hw hend
        have hi1e : i1 = n - 2 := by omega
        rw [hi1e] at hk
        have hsteps : (steps : Int) = 1 := by linear_combination hk
        have hsteps' : steps = 1 := by exact_mod_cast hsteps
        simp only [swapPassAux, hmk]
        simp [hsteps']
      · have hstep2 : 2 ≤ steps := by
          by_contra hc
          have hs1 : steps = 1 := by omega
          rw [hs1] at hk
          push_cast at hk
          have hprod : i1 * n = (n - 2) * n := by linear_combination hk
          have : i1 = n - 2 := mul_right_cancel₀ (by omega : n ≠ 0) hprod
          omega
        have hmk := makeOneNeighbor_wrap_some (s := ⟨i1, i2⟩) hw hend
        have hcast : ((steps - 1 : Nat) : Int) = (steps : Int) - 1 := by omega
        have hknew : (i1 + 1) * n + 0 + ((steps - 1 : Nat) : Int)
            = (n - 1) * n := by
          rw [hcast]
          linear_combination hk
        obtain ⟨ht, hlen⟩ := ih (steps - 1) (i1 + 1) 0 (by omega) le_rfl
          (by omega) hknew (by omega) (by omega)
        simp only [swapPassAux, hmk]
        refine ⟨ht, ?_⟩
        simp only [List.length_cons, hlen]
        omega
    · by_cases hend : i1 = n - 1
      · exfalso
        rw [hend] at hk
        have : (i2 : Int) + steps = 0 := by linear_combination hk
        omega
      · have hpos : (0 : Int) < n := by omega
        have hstep2 : 2 ≤ steps := by
          by_contra hc
          have hs1 : steps = 1 := by omega
          rw [hs1] at hk
          push_cast at hk
          have e1 : (n - 1) * n = n * n - n := by ring
          have e2 : (n - 2) * n = n * n - 2 * n := by ring
          have hi2ub : i2 ≤ n - 2 := by omega
          have hub : i1 * n < (n - 1) * n := by linarith
          have hlb : (n - 2) * n < i1 * n := by linarith
          have h1lt : i1 < n - 1 := (mul_lt_mul_right hpos).mp hub
          have h2lt : n - 2 < i1 := (mul_lt_mul_right hpos).mp hlb
          omega
        have hmk := makeOneNeighbor_step_some (s := ⟨i1, i2⟩) hw hend
        have hcast : ((steps - 1 : Nat) : Int) = (steps : Int) - 1 := by omega
        have hknew : i1 * n + (i2 + 1) + ((steps - 1 : Nat) : Int)
            = (n - 1) * n := by
          rw [hcast]
          linear_combination hk
        obtain ⟨ht, hlen⟩ := ih (steps - 1) i1 (i2 + 1) hi1 (by omega)
          (by omega) hknew (by omega) (by omega)
        simp only [swapPassAux, hmk]
        refine ⟨ht, ?_⟩
        simp only [List.length_cons, hlen]
        omega

/-- C2 counterexample: over 3 periods, one full pass of `Swap` proposes
5 moves — the counter pairs (0,1), (0,2), (1,0), (1,1), (1,2) — not
`3·2/2 = 3`: the unordered pair {0,1} is proposed twice (as (0,1) and
(1,0)) and the self-pair (1,1) is proposed as well. -/
theorem c2_swap_pass_counterexample :
    swapPass 3 = ([(0, 1), (0, 2), (1, 0), (1, 1), (1, 2)], true) ∧
    (swapPass 3).1.length ≠ 3 * (3 - 1) / 2 := by decide

/-- C2 amended: over `n ≥ 2` periods, one full pass of `Swap` (from
`OnStart` until `MakeOneNeighbor` first returns false) terminates and
proposes exactly `n·(n-1) - 1 = n² - n - 1` candidate moves — the
ordered counter pairs in lexicographic order starting after (0,0) —
which include self-pairs and repeat some unordered pairs, rather than
the `n·(n-1)/2` distinct unordered pairs of the claim.  (For `n ≤ 1`
the pass never returns false; its first call already steps the counters
out of the variable range.) -/
theorem c2_swap_pass_count (n : Nat) (h : 2 ≤ n) :
    (swapPass n).2 = true ∧ (swapPass n).1.length = n * n - n - 1 := by
  have hn : (2 : Int) ≤ (n : Int) := by exact_mod_cast h
  have hnn : n ≤ n * n := Nat.le_mul_of_pos_left n (by omega)
  have h2n : 2 * n ≤ n * n := Nat.mul_le_mul_right n h
  have hkeq : (0 : Int) * n + 0 + ((n * n - n : Nat) : Int)
      = ((n : Int) - 1) * n := by
    push_cast [hnn]
    ring
  obtain ⟨ht, hlen⟩ := swapPassAux_spec (n : Int) hn (n * n) (n * n - n) 0 0
    le_rfl le_rfl (by omega) hkeq (by omega) (Nat.sub_le _ _)
  exact ⟨ht, by rw [swapPass, swapOnStart, hlen]⟩

/-- C2 witness: instantiating the amended claim at `n = 4`: the pass
terminates with `4·4 - 4 - 1 = 11` proposed moves. -/
theorem c2_swap_pass_count_witness :
    2 ≤ 4 ∧ ((swapPass 4).2 = true ∧ (swapPass 4).1.length = 4 * 4 - 4 - 1) :=
  ⟨by decide, c2_swap_pass_count 4 (by decide)⟩

end Acp
